import Mathlib

/-!
Shallow embedding of the document-management backend
(`src/backend/server-vercel.js`).  The file holds two Express variants:

* an in-memory variant keeping an array `documents` and a counter `nextId`;
* a sqlite variant keeping a `documents` table (AUTOINCREMENT ids), with the
  blobs written to an uploads directory on disk.

Bytes are modelled as lists of naturals, timestamps as abstract naturals, the
disk as an association list from paths to byte lists.  HTTP responses are
modelled by a small envelope structure (status, success flag, message).
-/

namespace DocServer

abbrev Bytes := List Nat

/-- Uniform response envelope: HTTP status, `success` flag, `message`. -/
structure Resp where
  status : Nat
  success : Bool
  message : String
deriving DecidableEq, Repr

/-- The public shape of a document record as returned by upload and list
responses of the in-memory variant: `id`, `filename`, `filesize`,
`created_at`. -/
structure DocRecord where
  id : Nat
  filename : String
  filesize : Nat
  created_at : Nat
deriving DecidableEq, Repr

/-- An upload request as seen by multer: the declared MIME type, the original
client-supplied filename, the actual bytes of the body, and the size the
client declared (which the server never uses: multer computes the size from
the bytes actually received). -/
structure UploadReq where
  mimetype : String
  originalname : String
  bytes : Bytes
  declaredSize : Nat
deriving DecidableEq, Repr

/-- A JS error object as it reaches the error middleware: whether it is a
`multer.MulterError`, its `code`, and its `message`. -/
structure JsError where
  isMulterError : Bool
  code : String
  message : String
deriving DecidableEq, Repr

/-- The error-handling middleware (identical in both variants): a multer
`LIMIT_FILE_SIZE` error gives 400 with a fixed message; the fileFilter error
message gives 400; anything else gives 500 echoing `error.message` (or the
fixed fallback when the message is falsy, i.e. empty). -/
def errorMiddleware (e : JsError) : Resp :=
  if e.isMulterError && (e.code == "LIMIT_FILE_SIZE") then
    ⟨400, false, "File too large. Maximum size is 10MB."⟩
  else if e.message == "Only PDF files are allowed" then
    ⟨400, false, e.message⟩
  else
    ⟨500, false, if e.message == "" then "Internal server error" else e.message⟩

/-- `parseInt(process.env.MAX_FILE_SIZE) || 10 * 1024 * 1024` default. -/
def defaultMaxFileSize : Nat := 10 * 1024 * 1024

/-- Result of an upload request: either a rejection routed through the error
middleware (no state change), or the success envelope carrying the document
record of the new upload. -/
inductive UploadRes where
  | rejected (resp : Resp)
  | accepted (resp : Resp) (document : DocRecord)
deriving DecidableEq, Repr

/-- Result of a download request: an error envelope, or the file itself
(filename used in the Content-Disposition header, plus the body bytes). -/
inductive DlRes where
  | err (resp : Resp)
  | file (filename : String) (body : Bytes)
deriving DecidableEq, Repr

/-! ### JS `parseInt` (used by the in-memory variant on the `:id` parameter) -/

/-- Numeric value of a list of decimal digit characters. -/
def digitsVal (ds : List Char) : Nat :=
  ds.foldl (fun a c => 10 * a + (c.toNat - 48)) 0

/-- ECMAScript StrWhiteSpaceChar: WhiteSpace (TAB, VT, FF, SP, NBSP, ZWNBSP
and the Unicode Zs category) and LineTerminator (LF, CR, LS, PS). -/
def jsWhitespace (c : Char) : Bool :=
  [0x09, 0x0A, 0x0B, 0x0C, 0x0D, 0x20, 0xA0, 0x1680, 0x2028, 0x2029,
    0x202F, 0x205F, 0x3000, 0xFEFF].contains c.toNat ||
  decide (0x2000 ≤ c.toNat ∧ c.toNat ≤ 0x200A)

/-- Hexadecimal digit: 0-9, a-f, A-F. -/
def jsHexDigit (c : Char) : Bool :=
  c.isDigit || decide (97 ≤ c.toNat ∧ c.toNat ≤ 102) ||
    decide (65 ≤ c.toNat ∧ c.toNat ≤ 70)

/-- Numeric value of one hexadecimal digit character. -/
def hexDigitVal (c : Char) : Nat :=
  if c.toNat ≤ 57 then c.toNat - 48
  else if 97 ≤ c.toNat then c.toNat - 87
  else c.toNat - 55

/-- Numeric value of a list of hexadecimal digit characters. -/
def hexVal (ds : List Char) : Nat :=
  ds.foldl (fun a c => 16 * a + hexDigitVal c) 0

/-- JS radix-free `parseInt(s)`: skip leading ECMAScript whitespace, take an
optional sign; a `0x`/`0X` prefix switches to hexadecimal; then the value of
the longest prefix of digits of the selected radix; `none` models `NaN`
(no such digits). -/
def jsParseInt (s : String) : Option Int :=
  let cs := s.data.dropWhile jsWhitespace
  let signRest : Int × List Char :=
    match cs with
    | '-' :: r => (-1, r)
    | '+' :: r => (1, r)
    | r => (1, r)
  match signRest.2 with
  | '0' :: 'x' :: r =>
    let ds := r.takeWhile jsHexDigit
    if ds.isEmpty then none else some (signRest.1 * (hexVal ds : Int))
  | '0' :: 'X' :: r =>
    let ds := r.takeWhile jsHexDigit
    if ds.isEmpty then none else some (signRest.1 * (hexVal ds : Int))
  | r =>
    let ds := r.takeWhile Char.isDigit
    if ds.isEmpty then none else some (signRest.1 * (digitsVal ds : Int))

/-! ### In-memory variant -/

/-- A stored document of the in-memory variant: metadata plus the buffer kept
in memory. -/
structure MemDoc where
  id : Nat
  filename : String
  filesize : Nat
  buffer : Bytes
  created_at : Nat
deriving DecidableEq, Repr

/-- Projection of a stored document to its public record (what upload and
list responses expose: without the buffer). -/
def MemDoc.toRecord (d : MemDoc) : DocRecord :=
  ⟨d.id, d.filename, d.filesize, d.created_at⟩

/-- The whole mutable state of the in-memory variant: the `documents` array
and the `nextId` counter. -/
structure MemState where
  documents : List MemDoc
  nextId : Nat
deriving DecidableEq, Repr

/-- Initial state: `documents = []`, `nextId = 1`. -/
def memInit : MemState := ⟨[], 1⟩

/-- `POST /documents/upload` of the in-memory variant.  The fileFilter
rejects any declared MIME type other than `application/pdf` (the error
middleware turns this into a 400); multer aborts with `LIMIT_FILE_SIZE` when
the received bytes exceed the configured limit; otherwise a document with
`id = nextId++`, the original filename, the actual byte count and the buffer
is pushed onto `documents` and returned (without the buffer). -/
def uploadMem (maxFileSize : Nat) (req : UploadReq) (now : Nat) (st : MemState) :
    UploadRes × MemState :=
  if req.mimetype == "application/pdf" then
    if req.bytes.length ≤ maxFileSize then
      let doc : MemDoc :=
        ⟨st.nextId, req.originalname, req.bytes.length, req.bytes, now⟩
      (.accepted ⟨200, true, "File uploaded successfully"⟩ doc.toRecord,
        ⟨st.documents ++ [doc], st.nextId + 1⟩)
    else
      (.rejected (errorMiddleware ⟨true, "LIMIT_FILE_SIZE", "File too large"⟩), st)
  else
    (.rejected (errorMiddleware ⟨false, "", "Only PDF files are allowed"⟩), st)

/-- `GET /documents` of the in-memory variant: maps the `documents` array,
in place, to records without buffers (no reordering). -/
def listMem (st : MemState) : List DocRecord :=
  st.documents.map MemDoc.toRecord

/-- Core of the in-memory download handler, after `parseInt` has produced
`pid` (where `none` models `NaN`): `documents.find(doc => doc.id === pid)`,
404 when absent, else the buffer with the stored filename. -/
def downloadMemP (st : MemState) (pid : Option Int) : DlRes :=
  match st.documents.find? (fun d => some ((d.id : Int)) == pid) with
  | none => .err ⟨404, false, "Document not found"⟩
  | some d => .file d.filename d.buffer

/-- `GET /documents/:id` of the in-memory variant: `parseInt` the raw
parameter, then look up. -/
def downloadMem (st : MemState) (idParam : String) : DlRes :=
  downloadMemP st (jsParseInt idParam)

/-- Download at a genuine numeric id (the behaviour on a well-formed id
parameter). -/
def downloadMemId (st : MemState) (docId : Nat) : DlRes :=
  downloadMemP st (some (docId : Int))

/-- Core of the in-memory delete handler after `parseInt`: `findIndex`, 404
on -1, else `splice(index, 1)` (remove the first match). -/
def deleteMemP (st : MemState) (pid : Option Int) : Resp × MemState :=
  if (st.documents.find? (fun d => some ((d.id : Int)) == pid)).isSome then
    (⟨200, true, "Document deleted successfully"⟩,
      ⟨st.documents.eraseP (fun d => some ((d.id : Int)) == pid), st.nextId⟩)
  else
    (⟨404, false, "Document not found"⟩, st)

/-- `DELETE /documents/:id` of the in-memory variant. -/
def deleteMem (st : MemState) (idParam : String) : Resp × MemState :=
  deleteMemP st (jsParseInt idParam)

/-- Delete at a genuine numeric id. -/
def deleteMemId (st : MemState) (docId : Nat) : Resp × MemState :=
  deleteMemP st (some (docId : Int))

/-! ### Sqlite variant -/

/-- A row of the `documents` table: `id` (AUTOINCREMENT), `filename`,
`filepath`, `filesize`, `created_at`. -/
structure SqlRow where
  id : Nat
  filename : String
  filepath : String
  filesize : Nat
  created_at : Nat
deriving DecidableEq, Repr

/-- Read the blob stored at a path, if any. -/
def diskRead (disk : List (String × Bytes)) (p : String) : Option Bytes :=
  (disk.find? (fun e => e.1 == p)).map Prod.snd

/-- `fs.existsSync`. -/
def diskExists (disk : List (String × Bytes)) (p : String) : Bool :=
  (diskRead disk p).isSome

/-- Writing a file creates it, overwriting any previous content at the same
path. -/
def diskWrite (disk : List (String × Bytes)) (p : String) (b : Bytes) :
    List (String × Bytes) :=
  (p, b) :: disk.filter (fun e => !(e.1 == p))

/-- `fs.unlinkSync`. -/
def diskUnlink (disk : List (String × Bytes)) (p : String) :
    List (String × Bytes) :=
  disk.filter (fun e => !(e.1 == p))

/-- State of the sqlite variant: the table rows, the AUTOINCREMENT sequence
(the largest id handed out so far), and the uploads directory on disk. -/
structure SqlState where
  rows : List SqlRow
  seq : Nat
  disk : List (String × Bytes)
deriving DecidableEq, Repr

/-- Initial state: empty table, sequence at 0, empty uploads directory. -/
def sqlInit : SqlState := ⟨[], 0, []⟩

/-- The multer diskStorage filename: `uniqueSuffix + '-' + file.originalname`
(the timestamp-plus-random `uniqueSuffix` is taken as a parameter). -/
def storedName (suffix : String) (originalname : String) : String :=
  suffix ++ "-" ++ originalname

/-- `POST /documents/upload` of the sqlite variant.  Same fileFilter and
size limit as the in-memory variant; on success multer has written the bytes
to disk under the generated name, and the INSERT assigns id `seq + 1`,
recording the original filename, the path and the actual byte count. -/
def uploadSql (maxFileSize : Nat) (req : UploadReq) (suffix : String)
    (now : Nat) (st : SqlState) : UploadRes × SqlState :=
  if req.mimetype == "application/pdf" then
    if req.bytes.length ≤ maxFileSize then
      let fp := storedName suffix req.originalname
      let newId := st.seq + 1
      let row : SqlRow := ⟨newId, req.originalname, fp, req.bytes.length, now⟩
      (.accepted ⟨200, true, "File uploaded successfully"⟩
          ⟨newId, req.originalname, req.bytes.length, now⟩,
        ⟨st.rows ++ [row], newId, diskWrite st.disk fp req.bytes⟩)
    else
      (.rejected (errorMiddleware ⟨true, "LIMIT_FILE_SIZE", "File too large"⟩), st)
  else
    (.rejected (errorMiddleware ⟨false, "", "Only PDF files are allowed"⟩), st)

/-- Insert a row into a list sorted by `created_at` descending. -/
def insertDesc (r : SqlRow) : List SqlRow → List SqlRow
  | [] => [r]
  | x :: xs => if x.created_at ≤ r.created_at then r :: x :: xs
               else x :: insertDesc r xs

/-- Sort rows by `created_at` descending (the semantics of
`SELECT * FROM documents ORDER BY created_at DESC`). -/
def sortDesc (l : List SqlRow) : List SqlRow :=
  l.foldr insertDesc []

/-- `GET /documents` of the sqlite variant: all rows, newest first. -/
def listSql (st : SqlState) : List SqlRow :=
  sortDesc st.rows

/-- `GET /documents/:id` of the sqlite variant: look the row up by id
(404 `Document not found` when absent), then check the blob exists on disk
(404 `File not found on disk` when missing), else stream it. -/
def downloadSql (st : SqlState) (docId : Nat) : DlRes :=
  match st.rows.find? (fun r => r.id == docId) with
  | none => .err ⟨404, false, "Document not found"⟩
  | some row =>
    match diskRead st.disk row.filepath with
    | none => .err ⟨404, false, "File not found on disk"⟩
    | some b => .file row.filename b

/-- First half of the sqlite delete handler body: remove the blob, guarded
by `fs.existsSync` (so a missing blob is a no-op, not an error).  The table
is untouched by this step. -/
def deleteBlobStep (st : SqlState) (row : SqlRow) : SqlState :=
  if diskExists st.disk row.filepath then
    ⟨st.rows, st.seq, diskUnlink st.disk row.filepath⟩
  else st

/-- Second half of the sqlite delete handler body: `DELETE FROM documents
WHERE id = ?`. -/
def deleteRowStep (st : SqlState) (docId : Nat) : SqlState :=
  ⟨st.rows.filter (fun r => !(r.id == docId)), st.seq, st.disk⟩

/-- `DELETE /documents/:id` of the sqlite variant: look the row up (404 when
absent), then remove the blob, then remove the row, in that order. -/
def deleteSql (st : SqlState) (docId : Nat) : Resp × SqlState :=
  match st.rows.find? (fun r => r.id == docId) with
  | none => (⟨404, false, "Document not found"⟩, st)
  | some row =>
    (⟨200, true, "Document deleted successfully"⟩,
      deleteRowStep (deleteBlobStep st row) docId)

/-! ### Traces of the in-memory variant -/

/-- A state-changing request to the in-memory variant (downloads and lists
do not change state). -/
inductive MemEvent where
  | upload (req : UploadReq) (now : Nat)
  | del (idParam : String)
deriving DecidableEq, Repr

/-- Effect of one request on the in-memory state. -/
def memStep (maxFileSize : Nat) (st : MemState) : MemEvent → MemState
  | .upload req now => (uploadMem maxFileSize req now st).2
  | .del idParam => (deleteMem st idParam).2

/-- Replay a sequence of requests. -/
def memRun (maxFileSize : Nat) (st : MemState) : List MemEvent → MemState
  | [] => st
  | e :: es => memRun maxFileSize (memStep maxFileSize st e) es

/-- The ids assigned by the successful uploads of a trace, in order of
assignment (rejected uploads and deletes assign none). -/
def memAssigned (maxFileSize : Nat) (st : MemState) : List MemEvent → List Nat
  | [] => []
  | .upload req now :: es =>
    (match (uploadMem maxFileSize req now st).1 with
     | .accepted _ doc => [doc.id]
     | .rejected _ => []) ++
      memAssigned maxFileSize (memStep maxFileSize st (.upload req now)) es
  | .del idParam :: es =>
      memAssigned maxFileSize (memStep maxFileSize st (.del idParam)) es

/-- The ids of the documents currently stored. -/
def memIds (st : MemState) : List Nat := st.documents.map MemDoc.id

/-- Invariant of the in-memory state: the counter is positive, every stored
id is positive and below `nextId`, and the stored ids are pairwise
distinct. -/
def MemInv (st : MemState) : Prop :=
  0 < st.nextId ∧
  (∀ d ∈ st.documents, 0 < d.id ∧ d.id < st.nextId) ∧ (memIds st).Nodup

/-- A stored document was created by some upload request of the trace: its
filename, byte count and buffer are exactly those of that request. -/
def memCreatedBy (es : List MemEvent) (d : MemDoc) : Prop :=
  ∃ req now, MemEvent.upload req now ∈ es ∧ req.mimetype = "application/pdf" ∧
    d.filename = req.originalname ∧ d.filesize = req.bytes.length ∧
    d.buffer = req.bytes ∧ d.created_at = now

/-! ### Traces of the sqlite variant -/

/-- A state-changing request to the sqlite variant. -/
inductive SqlEvent where
  | upload (req : UploadReq) (suffix : String) (now : Nat)
  | del (docId : Nat)
deriving DecidableEq, Repr

/-- Effect of one request on the sqlite state. -/
def sqlStep (maxFileSize : Nat) (st : SqlState) : SqlEvent → SqlState
  | .upload req suffix now => (uploadSql maxFileSize req suffix now st).2
  | .del docId => (deleteSql st docId).2

/-- Replay a sequence of requests. -/
def sqlRun (maxFileSize : Nat) (st : SqlState) : List SqlEvent → SqlState
  | [] => st
  | e :: es => sqlRun maxFileSize (sqlStep maxFileSize st e) es

/-- The ids assigned by the successful uploads of a sqlite trace, in order. -/
def sqlAssigned (maxFileSize : Nat) (st : SqlState) : List SqlEvent → List Nat
  | [] => []
  | .upload req suffix now :: es =>
    (match (uploadSql maxFileSize req suffix now st).1 with
     | .accepted _ doc => [doc.id]
     | .rejected _ => []) ++
      sqlAssigned maxFileSize (sqlStep maxFileSize st (.upload req suffix now)) es
  | .del docId :: es =>
      sqlAssigned maxFileSize (sqlStep maxFileSize st (.del docId)) es

/-- The generated storage names of a trace are fresh: at each upload, the
name built from the collision-avoidance suffix does not yet exist on disk
(what `Date.now() + '-' + random` is there to ensure). -/
def sqlFresh (maxFileSize : Nat) (st : SqlState) : List SqlEvent → Bool
  | [] => true
  | .upload req suffix now :: es =>
    (diskRead st.disk (storedName suffix req.originalname)).isNone &&
      sqlFresh maxFileSize (sqlStep maxFileSize st (.upload req suffix now)) es
  | .del docId :: es =>
      sqlFresh maxFileSize (sqlStep maxFileSize st (.del docId)) es

/-- Invariant of the sqlite state with respect to the trace that produced
it: ids are positive, bounded by the sequence and pairwise distinct; live
rows have pairwise distinct paths; and every row's blob is on disk and holds
exactly the bytes of the upload that created the row. -/
def SqlTraceInv (es : List SqlEvent) (st : SqlState) : Prop :=
  (∀ r ∈ st.rows, 0 < r.id ∧ r.id ≤ st.seq) ∧
  (st.rows.map SqlRow.id).Nodup ∧
  (st.rows.map SqlRow.filepath).Nodup ∧
  ∀ r ∈ st.rows, ∃ req suffix now, SqlEvent.upload req suffix now ∈ es ∧
    req.mimetype = "application/pdf" ∧
    r.filename = req.originalname ∧ r.filesize = req.bytes.length ∧
    r.created_at = now ∧
    diskRead st.disk r.filepath = some req.bytes

/-- The id-related part of the sqlite invariant (holds on every run, with no
assumption on the generated storage names): ids are positive, bounded by the
AUTOINCREMENT sequence, and pairwise distinct. -/
def SqlIdInv (st : SqlState) : Prop :=
  (∀ r ∈ st.rows, 0 < r.id ∧ r.id ≤ st.seq) ∧ (st.rows.map SqlRow.id).Nodup

/-! ### Helper lemmas: basic list facts -/

theorem find_cons_pos {α : Type} (p : α → Bool) (a : α) (l : List α)
    (h : p a = true) : (a :: l).find? p = some a := by
  simp [List.find?, h]

theorem find_cons_neg {α : Type} (p : α → Bool) (a : α) (l : List α)
    (h : p a = false) : (a :: l).find? p = l.find? p := by
  simp [List.find?, h]

theorem filter_cons_pos {α : Type} (p : α → Bool) (a : α) (l : List α)
    (h : p a = true) : (a :: l).filter p = a :: l.filter p := by
  simp [List.filter, h]

theorem filter_cons_neg {α : Type} (p : α → Bool) (a : α) (l : List α)
    (h : p a = false) : (a :: l).filter p = l.filter p := by
  simp [List.filter, h]

theorem eraseP_cons_pos {α : Type} (p : α → Bool) (a : α) (l : List α)
    (h : p a = true) : (a :: l).eraseP p = l := by
  simp [List.eraseP, h]

theorem eraseP_cons_neg {α : Type} (p : α → Bool) (a : α) (l : List α)
    (h : p a = false) : (a :: l).eraseP p = a :: l.eraseP p := by
  simp [List.eraseP, h]

/-! ### Helper lemmas: lookup in lists with pairwise-distinct keys -/

theorem find_key_of_mem {α κ : Type} [BEq κ] [LawfulBEq κ] (f : α → κ)
    (l : List α) (h : (l.map f).Nodup) (a : α) (ha : a ∈ l) :
    l.find? (fun x => f x == f a) = some a := by
  induction l with
  | nil => cases ha
  | cons b l ih =>
    rcases List.mem_cons.mp ha with rfl | hmem
    · exact find_cons_pos (fun x => f x == f a) a l (by simp)
    · have hb : (f b == f a) = false := by
        simp only [beq_eq_false_iff_ne, ne_eq]
        intro heq
        have hmap : f a ∈ l.map f := List.mem_map_of_mem f hmem
        rw [← heq] at hmap
        exact (List.nodup_cons.mp h).1 hmap
      rw [find_cons_neg (fun x => f x == f a) b l hb,
        ih (List.nodup_cons.mp h).2 hmem]

theorem eraseP_key_ne {α κ : Type} [BEq κ] [LawfulBEq κ] (f : α → κ) (k : κ)
    (l : List α) (h : (l.map f).Nodup) :
    ∀ a ∈ l.eraseP (fun x => f x == k), ¬ f a = k := by
  induction l with
  | nil => simp [List.eraseP_nil]
  | cons b l ih =>
    by_cases hb : f b = k
    · rw [eraseP_cons_pos _ _ _ (by simp [hb])]
      intro a ha hak
      have hmap : f a ∈ l.map f := List.mem_map_of_mem f ha
      rw [hak, ← hb] at hmap
      exact (List.nodup_cons.mp h).1 hmap
    · rw [eraseP_cons_neg _ _ _ (by simp [hb])]
      intro a ha
      rcases List.mem_cons.mp ha with rfl | hmem
      · exact hb
      · exact ih (List.nodup_cons.mp h).2 a hmem

theorem map_nodup_inj {α κ : Type} (f : α → κ) (l : List α)
    (h : (l.map f).Nodup) (a : α) (ha : a ∈ l) (b : α) (hb : b ∈ l)
    (hfab : f a = f b) : a = b := by
  exact List.inj_on_of_nodup_map h ha hb hfab

/-! ### Helper lemmas: disk operations -/

theorem diskRead_write_self (disk : List (String × Bytes)) (p : String)
    (b : Bytes) : diskRead (diskWrite disk p b) p = some b := by
  simp only [diskRead, diskWrite]
  rw [find_cons_pos _ _ _ (by simp)]
  rfl

theorem find_filter_key_ne (disk : List (String × Bytes)) (p q : String)
    (h : ¬ q = p) :
    (disk.filter (fun e => !(e.1 == p))).find? (fun e => e.1 == q) =
      disk.find? (fun e => e.1 == q) := by
  induction disk with
  | nil => rfl
  | cons a d ih =>
    by_cases hq : a.1 = q
    · have hap : ¬ a.1 = p := by rw [hq]; exact h
      rw [filter_cons_pos _ _ _ (by simp [hap]),
        find_cons_pos _ _ _ (by simp [hq]),
        find_cons_pos _ _ _ (by simp [hq])]
    · by_cases hp : a.1 = p
      · rw [filter_cons_neg _ _ _ (by simp [hp]),
          find_cons_neg _ _ _ (by simp [hq]), ih]
      · rw [filter_cons_pos _ _ _ (by simp [hp]),
          find_cons_neg _ _ _ (by simp [hq]),
          find_cons_neg _ _ _ (by simp [hq]), ih]

theorem diskRead_write_ne (disk : List (String × Bytes)) (p q : String)
    (b : Bytes) (h : ¬ q = p) :
    diskRead (diskWrite disk p b) q = diskRead disk q := by
  simp only [diskRead, diskWrite]
  rw [find_cons_neg _ _ _ (by simp; exact fun e => h e.symm),
    find_filter_key_ne disk p q h]

theorem diskRead_unlink_self (disk : List (String × Bytes)) (p : String) :
    diskRead (diskUnlink disk p) p = none := by
  simp only [diskRead, diskUnlink]
  rw [List.find?_eq_none.mpr]
  · rfl
  · intro e he
    have hmem := List.of_mem_filter he
    simp only [Bool.not_eq_true'] at hmem
    simp [hmem]

theorem diskRead_unlink_ne (disk : List (String × Bytes)) (p q : String)
    (h : ¬ q = p) :
    diskRead (diskUnlink disk p) q = diskRead disk q := by
  simp only [diskRead, diskUnlink]
  rw [find_filter_key_ne disk p q h]

/-! ### Helper lemmas: in-memory lookup and delete -/

theorem memFindPred_eq (k : Nat) :
    (fun d : MemDoc => some ((d.id : Int)) == some ((k : Int))) =
      (fun d : MemDoc => d.id == k) := by
  funext d
  by_cases h : d.id = k
  · simp [h]
  · simp [h, beq_eq_false_iff_ne, Int.natCast_inj]

theorem downloadMemId_found (st : MemState) (d : MemDoc)
    (h : (memIds st).Nodup) (hd : d ∈ st.documents) :
    downloadMemId st d.id = .file d.filename d.buffer := by
  have hfind := find_key_of_mem MemDoc.id st.documents h d hd
  simp only [downloadMemId, downloadMemP, memFindPred_eq]
  rw [hfind]

theorem downloadMemId_absent (st : MemState) (k : Nat) (h : ¬ k ∈ memIds st) :
    downloadMemId st k = .err ⟨404, false, "Document not found"⟩ := by
  simp only [downloadMemId, downloadMemP, memFindPred_eq]
  rw [List.find?_eq_none.mpr]
  intro d hd
  simp only [beq_iff_eq]
  intro he
  exact h (he ▸ List.mem_map_of_mem MemDoc.id hd)

theorem deleteMemId_absent (st : MemState) (k : Nat) (h : ¬ k ∈ memIds st) :
    deleteMemId st k = (⟨404, false, "Document not found"⟩, st) := by
  simp only [deleteMemId, deleteMemP, memFindPred_eq]
  rw [List.find?_eq_none.mpr]
  · rfl
  · intro d hd
    simp only [beq_iff_eq]
    intro he
    exact h (he ▸ List.mem_map_of_mem MemDoc.id hd)

theorem deleteMemId_found (st : MemState) (d : MemDoc)
    (hnd : (memIds st).Nodup) (hd : d ∈ st.documents) :
    deleteMemId st d.id =
      (⟨200, true, "Document deleted successfully"⟩,
        ⟨st.documents.eraseP (fun x => x.id == d.id), st.nextId⟩) := by
  have hfind := find_key_of_mem MemDoc.id st.documents hnd d hd
  simp only [deleteMemId, deleteMemP, memFindPred_eq]
  rw [hfind]
  rfl

theorem memIds_erase_not_mem (st : MemState) (k : Nat)
    (hnd : (memIds st).Nodup) :
    ¬ k ∈ (st.documents.eraseP (fun x => x.id == k)).map MemDoc.id := by
  intro hmem
  rcases List.mem_map.mp hmem with ⟨d, hd, hdk⟩
  exact eraseP_key_ne MemDoc.id k st.documents hnd d hd hdk

/-! ### Helper lemmas: in-memory invariant preservation -/

theorem memInit_inv : MemInv memInit := by
  refine ⟨Nat.one_pos, ?_, ?_⟩ <;> simp [memInit, memIds]

theorem memStep_inv (max : Nat) (st : MemState) (e : MemEvent)
    (hinv : MemInv st) : MemInv (memStep max st e) := by
  obtain ⟨hpos, hbd, hnd⟩ := hinv
  cases e with
  | upload req now =>
    simp only [memStep, uploadMem]
    by_cases hm : (req.mimetype == "application/pdf") = true
    · rw [if_pos hm]
      by_cases hs : req.bytes.length ≤ max
      · rw [if_pos hs]
        refine ⟨Nat.succ_pos _, ?_, ?_⟩
        · intro d hd
          rcases List.mem_append.mp hd with hold | hnew
          · exact ⟨(hbd d hold).1, Nat.lt_succ_of_lt (hbd d hold).2⟩
          · rcases List.mem_singleton.mp hnew with rfl
            exact ⟨hpos, Nat.lt_succ_self _⟩
        · simp only [memIds, List.map_append, List.map_cons, List.map_nil]
          rw [List.nodup_append]
          refine ⟨hnd, List.nodup_singleton _, ?_⟩
          intro x hx hx2
          rcases List.mem_singleton.mp hx2 with rfl
          rcases List.mem_map.mp hx with ⟨d, hd, hdk⟩
          exact absurd (hdk ▸ (hbd d hd).2) (lt_irrefl _)
      · rw [if_neg hs]
        exact ⟨hpos, hbd, hnd⟩
    · rw [if_neg hm]
      exact ⟨hpos, hbd, hnd⟩
  | del idParam =>
    simp only [memStep, deleteMem, deleteMemP]
    by_cases hf : (st.documents.find?
        (fun d => some ((d.id : Int)) == jsParseInt idParam)).isSome = true
    · rw [if_pos hf]
      have hsub : List.Sublist
          (st.documents.eraseP
            (fun d => some ((d.id : Int)) == jsParseInt idParam))
          st.documents :=
        List.eraseP_sublist _
      refine ⟨hpos, ?_, ?_⟩
      · intro d hd
        exact hbd d (hsub.subset hd)
      · exact List.Nodup.sublist (hsub.map MemDoc.id) hnd
    · rw [if_neg hf]
      exact ⟨hpos, hbd, hnd⟩

theorem memRun_inv (max : Nat) (es : List MemEvent) : ∀ st : MemState,
    MemInv st → MemInv (memRun max st es) := by
  induction es with
  | nil => intro st h; exact h
  | cons e es ih =>
    intro st h
    exact ih (memStep max st e) (memStep_inv max st e h)

theorem memStep_createdBy (max : Nat) (es : List MemEvent) (st : MemState)
    (e : MemEvent) (he : e ∈ es)
    (hprov : ∀ d ∈ st.documents, memCreatedBy es d) :
    ∀ d ∈ (memStep max st e).documents, memCreatedBy es d := by
  cases e with
  | upload req now =>
    simp only [memStep, uploadMem]
    by_cases hm : (req.mimetype == "application/pdf") = true
    · rw [if_pos hm]
      by_cases hs : req.bytes.length ≤ max
      · rw [if_pos hs]
        intro d hd
        rcases List.mem_append.mp hd with hold | hnew
        · exact hprov d hold
        · rcases List.mem_singleton.mp hnew with rfl
          exact ⟨req, now, he, by simpa using hm, rfl, rfl, rfl, rfl⟩
      · rw [if_neg hs]; exact hprov
    · rw [if_neg hm]; exact hprov
  | del idParam =>
    simp only [memStep, deleteMem, deleteMemP]
    by_cases hf : (st.documents.find?
        (fun d => some ((d.id : Int)) == jsParseInt idParam)).isSome = true
    · rw [if_pos hf]
      intro d hd
      exact hprov d ((List.eraseP_sublist _).subset hd)
    · rw [if_neg hf]; exact hprov

theorem memRun_createdBy (max : Nat) (es : List MemEvent) :
    ∀ rest : List MemEvent, (∀ e ∈ rest, e ∈ es) → ∀ st : MemState,
    (∀ d ∈ st.documents, memCreatedBy es d) →
    ∀ d ∈ (memRun max st rest).documents, memCreatedBy es d := by
  intro rest
  induction rest with
  | nil => intro _ st h; exact h
  | cons e rest ih =>
    intro hsub st h
    exact ih (fun x hx => hsub x (List.mem_cons_of_mem e hx))
      (memStep max st e)
      (memStep_createdBy max es st e (hsub e (List.mem_cons_self e rest)) h)

/-! ### Helper lemmas: id assignment (in-memory counter) -/

theorem memAssigned_cons_cases (max : Nat) (st : MemState) (e : MemEvent)
    (es : List MemEvent) :
    (memAssigned max st (e :: es) =
        memAssigned max (memStep max st e) es ∧
      (memStep max st e).nextId = st.nextId) ∨
    (memAssigned max st (e :: es) =
        st.nextId :: memAssigned max (memStep max st e) es ∧
      (memStep max st e).nextId = st.nextId + 1) := by
  cases e with
  | upload req now =>
    by_cases hm : (req.mimetype == "application/pdf") = true
    · by_cases hs : req.bytes.length ≤ max
      · right
        constructor
        · simp only [memAssigned, uploadMem, if_pos hm, if_pos hs]
          rfl
        · simp only [memStep, uploadMem, if_pos hm, if_pos hs]
      · left
        constructor
        · simp only [memAssigned, uploadMem, if_pos hm, if_neg hs]
          rfl
        · simp only [memStep, uploadMem, if_pos hm, if_neg hs]
    · left
      constructor
      · simp only [memAssigned, uploadMem, if_neg hm]
        rfl
      · simp only [memStep, uploadMem, if_neg hm]
  | del idParam =>
    left
    constructor
    · simp only [memAssigned]
    · simp only [memStep, deleteMem, deleteMemP]
      by_cases hf : (st.documents.find?
          (fun d => some ((d.id : Int)) == jsParseInt idParam)).isSome = true
      · rw [if_pos hf]
      · rw [if_neg hf]

theorem memRun_nextId_mono (max : Nat) (es : List MemEvent) :
    ∀ st : MemState, st.nextId ≤ (memRun max st es).nextId := by
  induction es with
  | nil => intro st; exact le_refl _
  | cons e es ih =>
    intro st
    have hrun : memRun max st (e :: es) = memRun max (memStep max st e) es := rfl
    rw [hrun]
    rcases memAssigned_cons_cases max st e es with ⟨_, hn⟩ | ⟨_, hn⟩
    · calc st.nextId = (memStep max st e).nextId := hn.symm
        _ ≤ _ := ih (memStep max st e)
    · calc st.nextId ≤ (memStep max st e).nextId := by omega
        _ ≤ _ := ih (memStep max st e)

theorem memAssigned_spec (max : Nat) (es : List MemEvent) : ∀ st : MemState,
    (∀ i ∈ memAssigned max st es,
      st.nextId ≤ i ∧ i < (memRun max st es).nextId) ∧
    (memAssigned max st es).Pairwise (· < ·) := by
  induction es with
  | nil =>
    intro st
    exact ⟨by simp [memAssigned], by simp [memAssigned]⟩
  | cons e es ih =>
    intro st
    obtain ⟨hb, hp⟩ := ih (memStep max st e)
    have hrun : memRun max st (e :: es) = memRun max (memStep max st e) es := rfl
    rcases memAssigned_cons_cases max st e es with ⟨ha, hn⟩ | ⟨ha, hn⟩
    · constructor
      · intro i hi
        rw [ha] at hi
        have := hb i hi
        rw [hrun]
        omega
      · rw [ha]; exact hp
    · constructor
      · intro i hi
        rw [ha] at hi
        rw [hrun]
        rcases List.mem_cons.mp hi with rfl | hi2
        · have hmono := memRun_nextId_mono max es (memStep max st e)
          omega
        · have := hb i hi2
          omega
      · rw [ha]
        refine List.Pairwise.cons ?_ hp
        intro j hj
        have := (hb j hj).1
        omega

/-! ### Helper lemmas: id assignment (sqlite AUTOINCREMENT) -/

theorem sqlAssigned_cons_cases (max : Nat) (st : SqlState) (e : SqlEvent)
    (es : List SqlEvent) :
    (sqlAssigned max st (e :: es) =
        sqlAssigned max (sqlStep max st e) es ∧
      (sqlStep max st e).seq = st.seq) ∨
    (sqlAssigned max st (e :: es) =
        (st.seq + 1) :: sqlAssigned max (sqlStep max st e) es ∧
      (sqlStep max st e).seq = st.seq + 1) := by
  cases e with
  | upload req suffix now =>
    by_cases hm : (req.mimetype == "application/pdf") = true
    · by_cases hs : req.bytes.length ≤ max
      · right
        constructor
        · simp only [sqlAssigned, uploadSql, if_pos hm, if_pos hs]
          rfl
        · simp only [sqlStep, uploadSql, if_pos hm, if_pos hs]
      · left
        constructor
        · simp only [sqlAssigned, uploadSql, if_pos hm, if_neg hs]
          rfl
        · simp only [sqlStep, uploadSql, if_pos hm, if_neg hs]
    · left
      constructor
      · simp only [sqlAssigned, uploadSql, if_neg hm]
        rfl
      · simp only [sqlStep, uploadSql, if_neg hm]
  | del k =>
    left
    constructor
    · simp only [sqlAssigned]
    · simp only [sqlStep, deleteSql]
      cases hfind : st.rows.find? (fun r => r.id == k) with
      | none => rfl
      | some row =>
        simp only [deleteRowStep, deleteBlobStep]
        split <;> rfl

theorem sqlRun_seq_mono (max : Nat) (es : List SqlEvent) :
    ∀ st : SqlState, st.seq ≤ (sqlRun max st es).seq := by
  induction es with
  | nil => intro st; exact le_refl _
  | cons e es ih =>
    intro st
    have hrun : sqlRun max st (e :: es) = sqlRun max (sqlStep max st e) es := rfl
    rw [hrun]
    rcases sqlAssigned_cons_cases max st e es with ⟨_, hn⟩ | ⟨_, hn⟩
    · calc st.seq = (sqlStep max st e).seq := hn.symm
        _ ≤ _ := ih (sqlStep max st e)
    · calc st.seq ≤ (sqlStep max st e).seq := by omega
        _ ≤ _ := ih (sqlStep max st e)

theorem sqlAssigned_spec (max : Nat) (es : List SqlEvent) : ∀ st : SqlState,
    (∀ i ∈ sqlAssigned max st es,
      st.seq < i ∧ i ≤ (sqlRun max st es).seq) ∧
    (sqlAssigned max st es).Pairwise (· < ·) := by
  induction es with
  | nil =>
    intro st
    exact ⟨by simp [sqlAssigned], by simp [sqlAssigned]⟩
  | cons e es ih =>
    intro st
    obtain ⟨hb, hp⟩ := ih (sqlStep max st e)
    have hrun : sqlRun max st (e :: es) = sqlRun max (sqlStep max st e) es := rfl
    rcases sqlAssigned_cons_cases max st e es with ⟨ha, hn⟩ | ⟨ha, hn⟩
    · constructor
      · intro i hi
        rw [ha] at hi
        have := hb i hi
        rw [hrun]
        omega
      · rw [ha]; exact hp
    · constructor
      · intro i hi
        rw [ha] at hi
        rw [hrun]
        rcases List.mem_cons.mp hi with rfl | hi2
        · have hmono := sqlRun_seq_mono max es (sqlStep max st e)
          omega
        · have := hb i hi2
          omega
      · rw [ha]
        refine List.Pairwise.cons ?_ hp
        intro j hj
        have := (hb j hj).1
        omega

/-! ### Helper lemmas: sqlite invariant preservation -/

theorem sqlInit_inv (es : List SqlEvent) : SqlTraceInv es sqlInit := by
  refine ⟨?_, ?_, ?_, ?_⟩ <;> simp [sqlInit]

theorem sqlUpload_inv (max : Nat) (es : List SqlEvent) (st : SqlState)
    (req : UploadReq) (suffix : String) (now : Nat)
    (he : SqlEvent.upload req suffix now ∈ es)
    (hfr : diskRead st.disk (storedName suffix req.originalname) = none)
    (hinv : SqlTraceInv es st) :
    SqlTraceInv es (sqlStep max st (.upload req suffix now)) := by
  obtain ⟨hbd, hid, hfp, hblob⟩ := hinv
  simp only [sqlStep, uploadSql]
  by_cases hm : (req.mimetype == "application/pdf") = true
  · rw [if_pos hm]
    by_cases hs : req.bytes.length ≤ max
    · rw [if_pos hs]
      refine ⟨?_, ?_, ?_, ?_⟩
      · intro r hr
        rcases List.mem_append.mp hr with hold | hnew
        · exact ⟨(hbd r hold).1, Nat.le_succ_of_le (hbd r hold).2⟩
        · rcases List.mem_singleton.mp hnew with rfl
          exact ⟨Nat.succ_pos _, le_refl _⟩
      · simp only [List.map_append, List.map_cons, List.map_nil]
        rw [List.nodup_append]
        refine ⟨hid, List.nodup_singleton _, ?_⟩
        intro x hx hx2
        rcases List.mem_singleton.mp hx2 with rfl
        rcases List.mem_map.mp hx with ⟨r, hr, hrk⟩
        have hle := (hbd r hr).2
        rw [hrk] at hle
        exact absurd hle (Nat.not_succ_le_self _)
      · simp only [List.map_append, List.map_cons, List.map_nil]
        rw [List.nodup_append]
        refine ⟨hfp, List.nodup_singleton _, ?_⟩
        intro x hx hx2
        rcases List.mem_singleton.mp hx2 with rfl
        rcases List.mem_map.mp hx with ⟨r, hr, hrk⟩
        obtain ⟨req2, suffix2, now2, _, _, _, _, _, hread⟩ := hblob r hr
        rw [hrk, hfr] at hread
        exact Option.noConfusion hread
      · intro r hr
        rcases List.mem_append.mp hr with hold | hnew
        · obtain ⟨req2, suffix2, now2, hmem2, hm2, h1, h2, h3, hread⟩ :=
            hblob r hold
          refine ⟨req2, suffix2, now2, hmem2, hm2, h1, h2, h3, ?_⟩
          have hne : ¬ r.filepath = storedName suffix req.originalname := by
            intro heq
            rw [heq, hfr] at hread
            exact Option.noConfusion hread
          rw [diskRead_write_ne st.disk (storedName suffix req.originalname)
            r.filepath req.bytes hne]
          exact hread
        · rcases List.mem_singleton.mp hnew with rfl
          exact ⟨req, suffix, now, he, by simpa using hm, rfl, rfl, rfl,
            diskRead_write_self st.disk (storedName suffix req.originalname)
              req.bytes⟩
    · rw [if_neg hs]
      exact ⟨hbd, hid, hfp, hblob⟩
  · rw [if_neg hm]
    exact ⟨hbd, hid, hfp, hblob⟩

theorem sqlDel_inv (max : Nat) (es : List SqlEvent) (st : SqlState) (k : Nat)
    (hinv : SqlTraceInv es st) : SqlTraceInv es (sqlStep max st (.del k)) := by
  obtain ⟨hbd, hid, hfp, hblob⟩ := hinv
  simp only [sqlStep, deleteSql]
  cases hfind : st.rows.find? (fun r => r.id == k) with
  | none => exact ⟨hbd, hid, hfp, hblob⟩
  | some row =>
    have hrowmem : row ∈ st.rows := List.mem_of_find?_eq_some hfind
    have hsubf : List.Sublist (st.rows.filter (fun r => !(r.id == k))) st.rows :=
      List.filter_sublist _
    have hrows2 : (deleteBlobStep st row).rows = st.rows := by
      simp only [deleteBlobStep]
      split <;> rfl
    have hseq2 : (deleteBlobStep st row).seq = st.seq := by
      simp only [deleteBlobStep]
      split <;> rfl
    refine ⟨?_, ?_, ?_, ?_⟩
    · intro r hr
      simp only [deleteRowStep, hrows2, hseq2] at hr ⊢
      exact hbd r (hsubf.subset hr)
    · simp only [deleteRowStep, hrows2]
      exact List.Nodup.sublist (hsubf.map SqlRow.id) hid
    · simp only [deleteRowStep, hrows2]
      exact List.Nodup.sublist (hsubf.map SqlRow.filepath) hfp
    · intro r hr
      simp only [deleteRowStep, hrows2] at hr
      have hrmem : r ∈ st.rows := hsubf.subset hr
      have hrk : (r.id == k) = false := by
        have := List.of_mem_filter hr
        simpa using this
      have hrowk : row.id = k := by
        have := List.find?_some hfind
        simpa using this
      have hrne : ¬ r = row := by
        intro heq
        rw [heq, hrowk] at hrk
        simp at hrk
      have hpne : ¬ r.filepath = row.filepath := by
        intro heq
        exact hrne (map_nodup_inj SqlRow.filepath st.rows hfp r hrmem row
          hrowmem heq)
      obtain ⟨req2, suffix2, now2, hmem2, hm2, h1, h2, h3, hread⟩ :=
        hblob r hrmem
      refine ⟨req2, suffix2, now2, hmem2, hm2, h1, h2, h3, ?_⟩
      simp only [deleteRowStep, deleteBlobStep]
      split
      · simpa [diskRead_unlink_ne st.disk row.filepath r.filepath hpne]
          using hread
      · exact hread

theorem sqlRun_inv (max : Nat) (es : List SqlEvent) :
    ∀ rest : List SqlEvent, (∀ e ∈ rest, e ∈ es) → ∀ st : SqlState,
    sqlFresh max st rest = true → SqlTraceInv es st →
    SqlTraceInv es (sqlRun max st rest) := by
  intro rest
  induction rest with
  | nil => intro _ st _ h; exact h
  | cons e rest ih =>
    intro hsub st hfr hinv
    have hsub2 : ∀ x ∈ rest, x ∈ es :=
      fun x hx => hsub x (List.mem_cons_of_mem e hx)
    cases e with
    | upload req suffix now =>
      simp only [sqlFresh, Bool.and_eq_true] at hfr
      exact ih hsub2 (sqlStep max st (.upload req suffix now)) hfr.2
        (sqlUpload_inv max es st req suffix now
          (hsub _ (List.mem_cons_self _ _))
          (Option.isNone_iff_eq_none.mp hfr.1) hinv)
    | del k =>
      simp only [sqlFresh] at hfr
      exact ih hsub2 (sqlStep max st (.del k)) hfr
        (sqlDel_inv max es st k hinv)

/-! ### Helper lemmas: sorting by creation time descending -/

theorem insertDesc_perm (r : SqlRow) (l : List SqlRow) :
    List.Perm (insertDesc r l) (r :: l) := by
  induction l with
  | nil => exact List.Perm.refl _
  | cons x xs ih =>
    simp only [insertDesc]
    split
    · exact List.Perm.refl _
    · exact List.Perm.trans (List.Perm.cons x ih)
        (List.Perm.swap r x xs)

theorem sortDesc_perm (l : List SqlRow) : List.Perm (sortDesc l) l := by
  induction l with
  | nil => exact List.Perm.refl _
  | cons x xs ih =>
    simp only [sortDesc, List.foldr_cons]
    exact List.Perm.trans (insertDesc_perm x (xs.foldr insertDesc []))
      (List.Perm.cons x ih)

theorem mem_listSql (st : SqlState) (r : SqlRow) :
    r ∈ listSql st ↔ r ∈ st.rows :=
  (sortDesc_perm st.rows).mem_iff

theorem listSql_ids_mem (st : SqlState) (k : Nat) :
    k ∈ (listSql st).map SqlRow.id ↔ k ∈ st.rows.map SqlRow.id :=
  ((sortDesc_perm st.rows).map SqlRow.id).mem_iff

theorem foldr_insertDesc_big (r : SqlRow) (acc l : List SqlRow)
    (h : ∀ y ∈ l, y.created_at < r.created_at) :
    l.foldr insertDesc (r :: acc) = r :: l.foldr insertDesc acc := by
  induction l with
  | nil => rfl
  | cons y ys ih =>
    have hy : y.created_at < r.created_at := h y (List.mem_cons_self _ _)
    have hys : ∀ z ∈ ys, z.created_at < r.created_at :=
      fun z hz => h z (List.mem_cons_of_mem _ hz)
    simp only [List.foldr_cons, ih hys]
    simp only [insertDesc]
    rw [if_neg (by omega)]

theorem sortDesc_append_big (l : List SqlRow) (r : SqlRow)
    (h : ∀ y ∈ l, y.created_at < r.created_at) :
    sortDesc (l ++ [r]) = r :: sortDesc l := by
  simp only [sortDesc, List.foldr_append, List.foldr_cons, List.foldr_nil]
  exact foldr_insertDesc_big r [] l h

/-! ### Helper lemmas: single accepted upload steps -/

theorem memStep_upload_ok (max : Nat) (req : UploadReq) (now : Nat)
    (st : MemState) (hm : req.mimetype = "application/pdf")
    (hs : req.bytes.length ≤ max) :
    memStep max st (.upload req now) =
      ⟨st.documents ++
          [⟨st.nextId, req.originalname, req.bytes.length, req.bytes, now⟩],
        st.nextId + 1⟩ := by
  simp only [memStep, uploadMem]
  rw [if_pos (by simp [hm]), if_pos hs]

theorem uploadMem_ok (max : Nat) (req : UploadReq) (now : Nat)
    (st : MemState) (hm : req.mimetype = "application/pdf")
    (hs : req.bytes.length ≤ max) :
    (uploadMem max req now st).1 =
      .accepted ⟨200, true, "File uploaded successfully"⟩
        ⟨st.nextId, req.originalname, req.bytes.length, now⟩ := by
  simp only [uploadMem]
  rw [if_pos (by simp [hm]), if_pos hs]
  rfl

theorem sqlStep_upload_ok (max : Nat) (req : UploadReq) (suffix : String)
    (now : Nat) (st : SqlState) (hm : req.mimetype = "application/pdf")
    (hs : req.bytes.length ≤ max) :
    sqlStep max st (.upload req suffix now) =
      ⟨st.rows ++
          [⟨st.seq + 1, req.originalname, storedName suffix req.originalname,
            req.bytes.length, now⟩],
        st.seq + 1,
        diskWrite st.disk (storedName suffix req.originalname) req.bytes⟩ := by
  simp only [sqlStep, uploadSql]
  rw [if_pos (by simp [hm]), if_pos hs]

theorem uploadSql_ok (max : Nat) (req : UploadReq) (suffix : String)
    (now : Nat) (st : SqlState) (hm : req.mimetype = "application/pdf")
    (hs : req.bytes.length ≤ max) :
    (uploadSql max req suffix now st).1 =
      .accepted ⟨200, true, "File uploaded successfully"⟩
        ⟨st.seq + 1, req.originalname, req.bytes.length, now⟩ := by
  simp only [uploadSql]
  rw [if_pos (by simp [hm]), if_pos hs]

/-! ### Helper lemmas: sqlite id invariant without freshness assumptions -/

theorem sqlStep_id_inv (max : Nat) (st : SqlState) (e : SqlEvent)
    (hinv : SqlIdInv st) : SqlIdInv (sqlStep max st e) := by
  obtain ⟨hbd, hid⟩ := hinv
  cases e with
  | upload req suffix now =>
    simp only [sqlStep, uploadSql]
    by_cases hm : (req.mimetype == "application/pdf") = true
    · rw [if_pos hm]
      by_cases hs : req.bytes.length ≤ max
      · rw [if_pos hs]
        constructor
        · intro r hr
          rcases List.mem_append.mp hr with hold | hnew
          · exact ⟨(hbd r hold).1, Nat.le_succ_of_le (hbd r hold).2⟩
          · rcases List.mem_singleton.mp hnew with rfl
            exact ⟨Nat.succ_pos _, le_refl _⟩
        · simp only [List.map_append, List.map_cons, List.map_nil]
          rw [List.nodup_append]
          refine ⟨hid, List.nodup_singleton _, ?_⟩
          intro x hx hx2
          rcases List.mem_singleton.mp hx2 with rfl
          rcases List.mem_map.mp hx with ⟨r, hr, hrk⟩
          have hle := (hbd r hr).2
          rw [hrk] at hle
          exact absurd hle (Nat.not_succ_le_self _)
      · rw [if_neg hs]; exact ⟨hbd, hid⟩
    · rw [if_neg hm]; exact ⟨hbd, hid⟩
  | del k =>
    simp only [sqlStep, deleteSql]
    cases hfind : st.rows.find? (fun r => r.id == k) with
    | none => exact ⟨hbd, hid⟩
    | some row =>
      have hsubf : List.Sublist (st.rows.filter (fun r => !(r.id == k)))
          st.rows := List.filter_sublist _
      have hrows2 : (deleteBlobStep st row).rows = st.rows := by
        simp only [deleteBlobStep]; split <;> rfl
      have hseq2 : (deleteBlobStep st row).seq = st.seq := by
        simp only [deleteBlobStep]; split <;> rfl
      constructor
      · intro r hr
        simp only [deleteRowStep, hrows2, hseq2] at hr ⊢
        exact hbd r (hsubf.subset hr)
      · simp only [deleteRowStep, hrows2]
        exact List.Nodup.sublist (hsubf.map SqlRow.id) hid

theorem sqlRun_id_inv (max : Nat) (es : List SqlEvent) : ∀ st : SqlState,
    SqlIdInv st → SqlIdInv (sqlRun max st es) := by
  induction es with
  | nil => intro st h; exact h
  | cons e es ih =>
    intro st h
    exact ih (sqlStep max st e) (sqlStep_id_inv max st e h)

theorem sqlInit_id_inv : SqlIdInv sqlInit := by
  constructor <;> simp [sqlInit]

/-! ### Helper lemmas: list ids of responses -/

theorem listMem_ids (st : MemState) :
    (listMem st).map DocRecord.id = memIds st := by
  simp only [listMem, memIds, List.map_map]
  rfl

theorem downloadMemP_none (st : MemState) :
    downloadMemP st none = .err ⟨404, false, "Document not found"⟩ := by
  simp only [downloadMemP]
  rw [List.find?_eq_none.mpr]
  intro d hd
  intro hcontra
  exact Bool.noConfusion hcontra

theorem deleteMemP_none (st : MemState) :
    deleteMemP st none = (⟨404, false, "Document not found"⟩, st) := by
  simp only [deleteMemP]
  rw [if_neg]
  intro hcontra
  rw [List.find?_eq_none.mpr] at hcontra
  · exact Bool.noConfusion hcontra
  · intro d hd
    intro hcontra2
    exact Bool.noConfusion hcontra2

/-! ### Claim C5 -/

/-- C5: an upload whose declared MIME type is not `application/pdf` is
rejected by the fileFilter with the 400 validation response, and the state
of either variant is returned unchanged: no metadata record is inserted and
no bytes are persisted to the blob store. -/
theorem c5_non_pdf_rejected (max : Nat) (req : UploadReq) (now : Nat)
    (suffix : String) (stm : MemState) (sts : SqlState)
    (hm : ¬ req.mimetype = "application/pdf") :
    uploadMem max req now stm =
      (.rejected ⟨400, false, "Only PDF files are allowed"⟩, stm) ∧
    uploadSql max req suffix now sts =
      (.rejected ⟨400, false, "Only PDF files are allowed"⟩, sts) := by
  constructor
  · simp only [uploadMem]
    rw [if_neg (by simp [hm])]
    rfl
  · simp only [uploadSql]
    rw [if_neg (by simp [hm])]
    rfl

/-- Witness for C5 at a concrete non-PDF upload. -/
theorem c5_witness :
    ¬ ("text/plain" : String) = "application/pdf" ∧
    uploadMem defaultMaxFileSize ⟨"text/plain", "a.txt", [1, 2], 2⟩ 0 memInit =
      (.rejected ⟨400, false, "Only PDF files are allowed"⟩, memInit) ∧
    uploadSql defaultMaxFileSize ⟨"text/plain", "a.txt", [1, 2], 2⟩ "s" 0
        sqlInit =
      (.rejected ⟨400, false, "Only PDF files are allowed"⟩, sqlInit) := by
  refine ⟨by decide, ?_, ?_⟩
  · exact (c5_non_pdf_rejected defaultMaxFileSize ⟨"text/plain", "a.txt", [1, 2], 2⟩
      0 "s" memInit sqlInit (by decide)).1
  · exact (c5_non_pdf_rejected defaultMaxFileSize ⟨"text/plain", "a.txt", [1, 2], 2⟩
      0 "s" memInit sqlInit (by decide)).2

/-! ### Claim C6 -/

/-- C6: an upload declared `application/pdf` whose byte count exceeds the
configured maximum (default 10,485,760 bytes) is rejected with the 400
`LIMIT_FILE_SIZE` response of the error middleware, and the state of either
variant is returned unchanged: no metadata record exists for it and no blob
is retained. -/
theorem c6_oversize_rejected (max : Nat) (req : UploadReq) (now : Nat)
    (suffix : String) (stm : MemState) (sts : SqlState)
    (hm : req.mimetype = "application/pdf") (hs : max < req.bytes.length) :
    defaultMaxFileSize = 10485760 ∧
    uploadMem max req now stm =
      (.rejected ⟨400, false, "File too large. Maximum size is 10MB."⟩, stm) ∧
    uploadSql max req suffix now sts =
      (.rejected ⟨400, false, "File too large. Maximum size is 10MB."⟩, sts) := by
  refine ⟨rfl, ?_, ?_⟩
  · simp only [uploadMem]
    rw [if_pos (by simp [hm]), if_neg (by omega)]
    rfl
  · simp only [uploadSql]
    rw [if_pos (by simp [hm]), if_neg (by omega)]
    rfl

/-- Witness for C6: a two-byte upload against a configured maximum of one
byte. -/
theorem c6_witness :
    ("application/pdf" : String) = "application/pdf" ∧
    (1 : Nat) < ([0, 0] : Bytes).length ∧
    uploadMem 1 ⟨"application/pdf", "big.pdf", [0, 0], 2⟩ 0 memInit =
      (.rejected ⟨400, false, "File too large. Maximum size is 10MB."⟩,
        memInit) := by
  refine ⟨rfl, by decide, ?_⟩
  exact (c6_oversize_rejected 1 ⟨"application/pdf", "big.pdf", [0, 0], 2⟩ 0 "s"
    memInit sqlInit rfl (by decide)).2.1

/-! ### Claim C10 -/

/-- C10 is refuted as frozen: radix-free `parseInt` reads a `0x` prefix as
hexadecimal, so the id string "0x1A" — whose decimal digit prefix is "0" —
does not behave as id 0: it parses to 26 and downloads the document with
id 26, while id 0 is not found. -/
theorem c10_counterexample :
    jsParseInt "0x1A" = some 26 ∧
    downloadMem ⟨[⟨26, "z.pdf", 1, [5], 3⟩], 27⟩ "0x1A" = .file "z.pdf" [5] ∧
    downloadMemId ⟨[⟨26, "z.pdf", 1, [5], 3⟩], 27⟩ 0 =
      .err ⟨404, false, "Document not found"⟩ ∧
    ¬ downloadMem ⟨[⟨26, "z.pdf", 1, [5], 3⟩], 27⟩ "0x1A" =
        downloadMemId ⟨[⟨26, "z.pdf", 1, [5], 3⟩], 27⟩ 0 := by
  refine ⟨?_, ?_, ?_, ?_⟩ <;> decide

/-- C10 (amended): the in-memory variant coerces the `:id` parameter with
radix-free `parseInt`: a string it fails to parse (no digits after optional
whitespace and sign, such as "abc") gives NaN, so download and delete answer
404 not-found rather than faulting; a string it parses to a number n behaves
exactly as the numeric id n — for a plain digit prefix such as "1abc" that n
is the decimal prefix 1, and such a string can match and act on an existing
document, leading whitespace is skipped ("\t5" parses to 5), but a
`0x`-prefixed string such as "0x1A" is read as hexadecimal 26, not as its
decimal digit prefix 0. -/
theorem c10_parseInt_coercion (st : MemState) (s : String) (n : Nat) :
    jsParseInt "abc" = none ∧
    jsParseInt "1abc" = some 1 ∧
    jsParseInt "0x1A" = some 26 ∧
    jsParseInt "\t5" = some 5 ∧
    (jsParseInt s = none →
      downloadMem st s = .err ⟨404, false, "Document not found"⟩ ∧
      deleteMem st s = (⟨404, false, "Document not found"⟩, st)) ∧
    (jsParseInt s = some ((n : Nat) : Int) →
      downloadMem st s = downloadMemId st n ∧
      deleteMem st s = deleteMemId st n) ∧
    downloadMem ⟨[⟨1, "a.pdf", 1, [7], 0⟩], 2⟩ "1abc" = .file "a.pdf" [7] := by
  refine ⟨by decide, by decide, by decide, by decide, ?_, ?_, by decide⟩
  · intro h
    constructor
    · simp only [downloadMem, h]
      exact downloadMemP_none st
    · simp only [deleteMem, h]
      exact deleteMemP_none st
  · intro h
    constructor
    · simp only [downloadMem, downloadMemId, h]
    · simp only [deleteMem, deleteMemId, h]

/-- Witness for C10 (amended): the generic parts applied to the empty state
and the parameters "abc" (NaN case) and "0x1A" (hexadecimal case, parsing
to 26), with every hypothesis discharged concretely. -/
theorem c10_witness :
    jsParseInt "abc" = none ∧
    jsParseInt "0x1A" = some ((26 : Nat) : Int) ∧
    (jsParseInt "abc" = none →
      downloadMem memInit "abc" = .err ⟨404, false, "Document not found"⟩ ∧
      deleteMem memInit "abc" = (⟨404, false, "Document not found"⟩, memInit)) ∧
    (jsParseInt "0x1A" = some ((26 : Nat) : Int) →
      downloadMem memInit "0x1A" = downloadMemId memInit 26 ∧
      deleteMem memInit "0x1A" = deleteMemId memInit 26) := by
  refine ⟨by decide, by decide, ?_, ?_⟩
  · exact (c10_parseInt_coercion memInit "abc" 26).2.2.2.2.1
  · exact (c10_parseInt_coercion memInit "0x1A" 26).2.2.2.2.2.1

/-! ### Claim C7 -/

/-- C7: sqlite Delete of an existing record removes the blob before the
metadata row — after the blob step the table still holds every row — and the
blob removal is idempotent: when the blob is already absent the blob step is
a no-op, the delete still succeeds, the record's id leaves the table, and in
every case the blob is gone at the end. -/
theorem c7_delete_blob_before_row (st : SqlState) (docId : Nat) (row : SqlRow)
    (hfind : st.rows.find? (fun r => r.id == docId) = some row) :
    deleteSql st docId =
      (⟨200, true, "Document deleted successfully"⟩,
        deleteRowStep (deleteBlobStep st row) docId) ∧
    (deleteBlobStep st row).rows = st.rows ∧
    (diskRead st.disk row.filepath = none → deleteBlobStep st row = st) ∧
    ¬ docId ∈ (deleteSql st docId).2.rows.map SqlRow.id ∧
    diskRead (deleteSql st docId).2.disk row.filepath = none := by
  have hds : deleteSql st docId =
      (⟨200, true, "Document deleted successfully"⟩,
        deleteRowStep (deleteBlobStep st row) docId) := by
    simp only [deleteSql, hfind]
  have hrows2 : (deleteBlobStep st row).rows = st.rows := by
    simp only [deleteBlobStep]; split <;> rfl
  refine ⟨hds, hrows2, ?_, ?_, ?_⟩
  · intro habsent
    simp only [deleteBlobStep, diskExists, habsent]
    rfl
  · rw [hds]
    intro hmem
    rcases List.mem_map.mp hmem with ⟨r, hr, hrk⟩
    simp only [deleteRowStep, hrows2] at hr
    have := List.of_mem_filter hr
    rw [hrk] at this
    simp at this
  · rw [hds]
    simp only [deleteRowStep, deleteBlobStep]
    by_cases hex : diskExists st.disk row.filepath = true
    · rw [if_pos hex]
      exact diskRead_unlink_self st.disk row.filepath
    · rw [if_neg hex]
      simp only [diskExists, Option.isSome] at hex
      cases hread : diskRead st.disk row.filepath with
      | none => rfl
      | some b => rw [hread] at hex; simp at hex

/-- Witness for C7: deleting the only record of a one-row state whose blob
is already missing from the disk. -/
theorem c7_witness :
    (([⟨1, "a.pdf", "p-a.pdf", 3, 5⟩] : List SqlRow).find?
        (fun r => r.id == 1) = some ⟨1, "a.pdf", "p-a.pdf", 3, 5⟩) ∧
    deleteSql ⟨[⟨1, "a.pdf", "p-a.pdf", 3, 5⟩], 1, []⟩ 1 =
      (⟨200, true, "Document deleted successfully"⟩,
        deleteRowStep
          (deleteBlobStep ⟨[⟨1, "a.pdf", "p-a.pdf", 3, 5⟩], 1, []⟩
            ⟨1, "a.pdf", "p-a.pdf", 3, 5⟩) 1) ∧
    (diskRead ([] : List (String × Bytes)) "p-a.pdf" = none →
      deleteBlobStep ⟨[⟨1, "a.pdf", "p-a.pdf", 3, 5⟩], 1, []⟩
        ⟨1, "a.pdf", "p-a.pdf", 3, 5⟩ =
      ⟨[⟨1, "a.pdf", "p-a.pdf", 3, 5⟩], 1, []⟩) := by
  have h := c7_delete_blob_before_row ⟨[⟨1, "a.pdf", "p-a.pdf", 3, 5⟩], 1, []⟩
    1 ⟨1, "a.pdf", "p-a.pdf", 3, 5⟩ (by decide)
  exact ⟨by decide, h.1, fun hr => h.2.2.1 hr⟩

/-! ### Claim C8 -/

/-- C8 is refuted: the two not-found sub-cases of sqlite Download do not
produce the same response — an unknown id answers "Document not found" while
a known id with a missing blob answers "File not found on disk" — and the
fallback branch of the error middleware echoes the error's own message, so a
failure response can carry internal text such as a file-system path. -/
theorem c8_counterexample :
    downloadSql sqlInit 1 = .err ⟨404, false, "Document not found"⟩ ∧
    downloadSql ⟨[⟨1, "a.pdf", "up/9-a.pdf", 1, 0⟩], 1, []⟩ 1 =
      .err ⟨404, false, "File not found on disk"⟩ ∧
    ¬ downloadSql sqlInit 1 =
        downloadSql ⟨[⟨1, "a.pdf", "up/9-a.pdf", 1, 0⟩], 1, []⟩ 1 ∧
    errorMiddleware ⟨false, "", "ENOENT: open up/9-a.pdf"⟩ =
      ⟨500, false, "ENOENT: open up/9-a.pdf"⟩ := by
  refine ⟨?_, ?_, ?_, ?_⟩ <;> decide

/-- C8 (amended): both not-found sub-cases of sqlite Download answer the
same status 404 with the same envelope shape (success false and a message),
differing only in their message text, which is one of two fixed strings
containing no internal detail; but the middleware's fallback 500 response
echoes the error's message verbatim whenever that message is non-empty. -/
theorem c8_amended_envelope (st : SqlState) (docId : Nat) (e : JsError) :
    (∀ resp, downloadSql st docId = .err resp →
      resp.status = 404 ∧ resp.success = false ∧
      (resp.message = "Document not found" ∨
        resp.message = "File not found on disk")) ∧
    ((errorMiddleware e).status = 500 →
      (errorMiddleware e).message = e.message ∨
      (errorMiddleware e).message = "Internal server error") := by
  constructor
  · intro resp h
    cases hfind : st.rows.find? (fun r => r.id == docId) with
    | none =>
      simp only [downloadSql, hfind, DlRes.err.injEq] at h
      rw [← h]
      exact ⟨rfl, rfl, Or.inl rfl⟩
    | some row =>
      cases hread : diskRead st.disk row.filepath with
      | none =>
        simp only [downloadSql, hfind, hread, DlRes.err.injEq] at h
        rw [← h]
        exact ⟨rfl, rfl, Or.inr rfl⟩
      | some b =>
        simp only [downloadSql, hfind, hread] at h
        exact DlRes.noConfusion h
  · simp only [errorMiddleware]
    split
    · intro h500
      simp at h500
    · split
      · intro h500
        simp at h500
      · intro _
        split
        · exact Or.inr rfl
        · exact Or.inl rfl

/-- Witness for C8 (amended), at the two concrete not-found states and a
concrete fallback error. -/
theorem c8_witness :
    (∀ resp, downloadSql sqlInit 1 = .err resp →
      resp.status = 404 ∧ resp.success = false ∧
      (resp.message = "Document not found" ∨
        resp.message = "File not found on disk")) ∧
    ((errorMiddleware ⟨false, "", "boom"⟩).status = 500 →
      (errorMiddleware ⟨false, "", "boom"⟩).message = "boom" ∨
      (errorMiddleware ⟨false, "", "boom"⟩).message =
        "Internal server error") :=
  ⟨(c8_amended_envelope sqlInit 1 ⟨false, "", "boom"⟩).1,
    (c8_amended_envelope sqlInit 1 ⟨false, "", "boom"⟩).2⟩

/-! ### Claim C3 -/

/-- C3 is refuted on the in-memory variant: after uploading A, then B, then
C, List() returns [A, B, C] (insertion order, oldest first), which is not
the claimed [C, B, A]. -/
theorem c3_counterexample :
    listMem (memRun defaultMaxFileSize memInit
        [.upload ⟨"application/pdf", "a.pdf", [1], 1⟩ 10,
         .upload ⟨"application/pdf", "b.pdf", [2], 1⟩ 20,
         .upload ⟨"application/pdf", "c.pdf", [3], 1⟩ 30]) =
      [⟨1, "a.pdf", 1, 10⟩, ⟨2, "b.pdf", 1, 20⟩, ⟨3, "c.pdf", 1, 30⟩] ∧
    ¬ ([⟨1, "a.pdf", 1, 10⟩, ⟨2, "b.pdf", 1, 20⟩, ⟨3, "c.pdf", 1, 30⟩] :
          List DocRecord) =
        [⟨3, "c.pdf", 1, 30⟩, ⟨2, "b.pdf", 1, 20⟩, ⟨1, "a.pdf", 1, 10⟩] := by
  constructor <;> decide

/-- C3 (amended): the sqlite variant does return List() newest-first — after
uploads A, B, C at strictly increasing timestamps later than everything
already stored it returns C, B, A ahead of the older rows — but the
in-memory variant performs no reordering and returns insertion order, oldest
first: its List() ends with A, B, C in that order. -/
theorem c3_list_order (max : Nat) (stm : MemState) (sts : SqlState)
    (reqA reqB reqC : UploadReq) (sufA sufB sufC : String) (tA tB tC : Nat)
    (hA : reqA.mimetype = "application/pdf") (hsA : reqA.bytes.length ≤ max)
    (hB : reqB.mimetype = "application/pdf") (hsB : reqB.bytes.length ≤ max)
    (hC : reqC.mimetype = "application/pdf") (hsC : reqC.bytes.length ≤ max)
    (hold : ∀ r ∈ sts.rows, r.created_at < tA)
    (hAB : tA < tB) (hBC : tB < tC) :
    listMem (memRun max stm
        [.upload reqA tA, .upload reqB tB, .upload reqC tC]) =
      listMem stm ++
        [⟨stm.nextId, reqA.originalname, reqA.bytes.length, tA⟩,
         ⟨stm.nextId + 1, reqB.originalname, reqB.bytes.length, tB⟩,
         ⟨stm.nextId + 2, reqC.originalname, reqC.bytes.length, tC⟩] ∧
    listSql (sqlRun max sts
        [.upload reqA sufA tA, .upload reqB sufB tB, .upload reqC sufC tC]) =
      ⟨sts.seq + 3, reqC.originalname, storedName sufC reqC.originalname,
          reqC.bytes.length, tC⟩ ::
        ⟨sts.seq + 2, reqB.originalname, storedName sufB reqB.originalname,
            reqB.bytes.length, tB⟩ ::
          ⟨sts.seq + 1, reqA.originalname, storedName sufA reqA.originalname,
              reqA.bytes.length, tA⟩ :: listSql sts := by
  constructor
  · have hrun : memRun max stm
        [.upload reqA tA, .upload reqB tB, .upload reqC tC] =
        memStep max (memStep max (memStep max stm (.upload reqA tA))
          (.upload reqB tB)) (.upload reqC tC) := rfl
    rw [hrun, memStep_upload_ok max reqA tA stm hA hsA,
      memStep_upload_ok max reqB tB _ hB hsB,
      memStep_upload_ok max reqC tC _ hC hsC]
    simp [listMem, List.append_assoc, MemDoc.toRecord]
  · have hrun : sqlRun max sts
        [.upload reqA sufA tA, .upload reqB sufB tB, .upload reqC sufC tC] =
        sqlStep max (sqlStep max (sqlStep max sts (.upload reqA sufA tA))
          (.upload reqB sufB tB)) (.upload reqC sufC tC) := rfl
    rw [hrun, sqlStep_upload_ok max reqA sufA tA sts hA hsA,
      sqlStep_upload_ok max reqB sufB tB _ hB hsB,
      sqlStep_upload_ok max reqC sufC tC _ hC hsC]
    simp only [listSql]
    rw [List.append_assoc, List.append_assoc]
    rw [show ([⟨sts.seq + 1, reqA.originalname,
        storedName sufA reqA.originalname, reqA.bytes.length, tA⟩] ++
        ([⟨sts.seq + 1 + 1, reqB.originalname,
          storedName sufB reqB.originalname, reqB.bytes.length, tB⟩] ++
          [⟨sts.seq + 1 + 1 + 1, reqC.originalname,
            storedName sufC reqC.originalname, reqC.bytes.length, tC⟩]) :
          List SqlRow) =
        [⟨sts.seq + 1, reqA.originalname, storedName sufA reqA.originalname,
          reqA.bytes.length, tA⟩,
         ⟨sts.seq + 2, reqB.originalname, storedName sufB reqB.originalname,
          reqB.bytes.length, tB⟩,
         ⟨sts.seq + 3, reqC.originalname, storedName sufC reqC.originalname,
          reqC.bytes.length, tC⟩] from rfl]
    rw [show (sts.rows ++
        [⟨sts.seq + 1, reqA.originalname, storedName sufA reqA.originalname,
          reqA.bytes.length, tA⟩,
         ⟨sts.seq + 2, reqB.originalname, storedName sufB reqB.originalname,
          reqB.bytes.length, tB⟩,
         ⟨sts.seq + 3, reqC.originalname, storedName sufC reqC.originalname,
          reqC.bytes.length, tC⟩]) =
        ((sts.rows ++
          [⟨sts.seq + 1, reqA.originalname, storedName sufA reqA.originalname,
            reqA.bytes.length, tA⟩]) ++
          [⟨sts.seq + 2, reqB.originalname, storedName sufB reqB.originalname,
            reqB.bytes.length, tB⟩]) ++
          [⟨sts.seq + 3, reqC.originalname, storedName sufC reqC.originalname,
            reqC.bytes.length, tC⟩] by simp]
    rw [sortDesc_append_big _ _ ?hC, sortDesc_append_big _ _ ?hB,
      sortDesc_append_big _ _ ?hA]
    case hA =>
      intro y hy
      exact hold y hy
    case hB =>
      intro y hy
      rcases List.mem_append.mp hy with hy2 | hy3
      · exact lt_trans (hold y hy2) hAB
      · rcases List.mem_singleton.mp hy3 with rfl
        exact hAB
    case hC =>
      intro y hy
      rcases List.mem_append.mp hy with hy2 | hy3
      · rcases List.mem_append.mp hy2 with hy4 | hy5
        · exact lt_trans (hold y hy4) (lt_trans hAB hBC)
        · rcases List.mem_singleton.mp hy5 with rfl
          exact lt_trans hAB hBC
      · rcases List.mem_singleton.mp hy3 with rfl
        exact hBC

/-- Witness for C3 (amended) at three concrete uploads from the empty
states. -/
theorem c3_witness :
    listMem (memRun 100 memInit
        [.upload ⟨"application/pdf", "a.pdf", [1], 1⟩ 10,
         .upload ⟨"application/pdf", "b.pdf", [2], 1⟩ 20,
         .upload ⟨"application/pdf", "c.pdf", [3], 1⟩ 30]) =
      listMem memInit ++
        [⟨memInit.nextId, "a.pdf", 1, 10⟩, ⟨memInit.nextId + 1, "b.pdf", 1, 20⟩,
         ⟨memInit.nextId + 2, "c.pdf", 1, 30⟩] ∧
    listSql (sqlRun 100 sqlInit
        [.upload ⟨"application/pdf", "a.pdf", [1], 1⟩ "x" 10,
         .upload ⟨"application/pdf", "b.pdf", [2], 1⟩ "y" 20,
         .upload ⟨"application/pdf", "c.pdf", [3], 1⟩ "z" 30]) =
      ⟨sqlInit.seq + 3, "c.pdf", storedName "z" "c.pdf", 1, 30⟩ ::
        ⟨sqlInit.seq + 2, "b.pdf", storedName "y" "b.pdf", 1, 20⟩ ::
          ⟨sqlInit.seq + 1, "a.pdf", storedName "x" "a.pdf", 1, 10⟩ ::
            listSql sqlInit :=
  c3_list_order 100 memInit sqlInit
    ⟨"application/pdf", "a.pdf", [1], 1⟩ ⟨"application/pdf", "b.pdf", [2], 1⟩
    ⟨"application/pdf", "c.pdf", [3], 1⟩ "x" "y" "z" 10 20 30
    rfl (by decide) rfl (by decide) rfl (by decide)
    (by intro r hr; simp [sqlInit] at hr) (by decide) (by decide)

/-! ### Claim C9 -/

/-- C9: along any trace of uploads and deletes of either variant, the
sequence of assigned ids is strictly increasing — every newly assigned id
exceeds every id assigned before it, deleted ones included, so ids are never
reused — all assigned ids are positive, and all are bounded by the current
counter (`nextId`, respectively the AUTOINCREMENT sequence). -/
theorem c9_ids_monotone (max : Nat) (es : List MemEvent)
    (es2 : List SqlEvent) :
    (memAssigned max memInit es).Pairwise (· < ·) ∧
    (∀ i ∈ memAssigned max memInit es,
      0 < i ∧ i < (memRun max memInit es).nextId) ∧
    (sqlAssigned max sqlInit es2).Pairwise (· < ·) ∧
    (∀ i ∈ sqlAssigned max sqlInit es2,
      0 < i ∧ i ≤ (sqlRun max sqlInit es2).seq) := by
  obtain ⟨hb, hp⟩ := memAssigned_spec max es memInit
  obtain ⟨hb2, hp2⟩ := sqlAssigned_spec max es2 sqlInit
  refine ⟨hp, ?_, hp2, ?_⟩
  · intro i hi
    have h := hb i hi
    have h1 : memInit.nextId = 1 := rfl
    omega
  · intro i hi
    have h := hb2 i hi
    have h1 : sqlInit.seq = 0 := rfl
    omega

/-! ### Claim C4 -/

/-- C4: for every id absent from the metadata store — including one just
removed by a successful Delete and one never assigned — Download and Delete
answer the 404 not-found failure response rather than faulting, and List
never includes that id; stated for the in-memory variant along any trace
from the initial state, and for the sqlite variant on any state. -/
theorem c4_absent_not_found (max : Nat) (es : List MemEvent) (k : Nat)
    (sts : SqlState) :
    (¬ k ∈ memIds (memRun max memInit es) →
      downloadMemId (memRun max memInit es) k =
        .err ⟨404, false, "Document not found"⟩ ∧
      deleteMemId (memRun max memInit es) k =
        (⟨404, false, "Document not found"⟩, memRun max memInit es) ∧
      ¬ k ∈ (listMem (memRun max memInit es)).map DocRecord.id) ∧
    (∀ resp st2, deleteMemId (memRun max memInit es) k = (resp, st2) →
      resp.success = true →
      downloadMemId st2 k = .err ⟨404, false, "Document not found"⟩ ∧
      ¬ k ∈ (listMem st2).map DocRecord.id) ∧
    (¬ k ∈ sts.rows.map SqlRow.id →
      downloadSql sts k = .err ⟨404, false, "Document not found"⟩ ∧
      deleteSql sts k = (⟨404, false, "Document not found"⟩, sts) ∧
      ¬ k ∈ (listSql sts).map SqlRow.id) ∧
    (∀ resp st2, deleteSql sts k = (resp, st2) → resp.success = true →
      downloadSql st2 k = .err ⟨404, false, "Document not found"⟩ ∧
      ¬ k ∈ (listSql st2).map SqlRow.id) := by
  obtain ⟨hpos, hbd, hnd⟩ := memRun_inv max es memInit memInit_inv
  refine ⟨?_, ?_, ?_, ?_⟩
  · intro h
    refine ⟨downloadMemId_absent _ k h, deleteMemId_absent _ k h, ?_⟩
    rw [listMem_ids]
    exact h
  · intro resp st2 hdel hsucc
    by_cases hk : k ∈ memIds (memRun max memInit es)
    · rcases List.mem_map.mp hk with ⟨d, hd, hdk⟩
      subst hdk
      rw [deleteMemId_found (memRun max memInit es) d hnd hd] at hdel
      injection hdel with h1 h2
      subst h1
      subst h2
      have hnot : ¬ d.id ∈ memIds
          (⟨(memRun max memInit es).documents.eraseP
              (fun x => x.id == d.id),
            (memRun max memInit es).nextId⟩ : MemState) :=
        memIds_erase_not_mem (memRun max memInit es) d.id hnd
      refine ⟨downloadMemId_absent _ _ hnot, ?_⟩
      rw [listMem_ids]
      exact hnot
    · rw [deleteMemId_absent _ k hk] at hdel
      injection hdel with h1 h2
      subst h1
      exact absurd hsucc (by decide)
  · intro h
    have hfind : sts.rows.find? (fun r => r.id == k) = none := by
      rw [List.find?_eq_none.mpr]
      intro r hr
      simp only [beq_iff_eq]
      intro he
      exact h (he ▸ List.mem_map_of_mem SqlRow.id hr)
    refine ⟨?_, ?_, ?_⟩
    · simp only [downloadSql, hfind]
    · simp only [deleteSql, hfind]
    · rw [listSql_ids_mem]
      exact h
  · intro resp st2 hdel hsucc
    cases hfind : sts.rows.find? (fun r => r.id == k) with
    | none =>
      simp only [deleteSql, hfind] at hdel
      injection hdel with h1 h2
      subst h1
      exact absurd hsucc (by decide)
    | some row =>
      simp only [deleteSql, hfind] at hdel
      injection hdel with h1 h2
      subst h2
      have hrows2 : (deleteBlobStep sts row).rows = sts.rows := by
        simp only [deleteBlobStep]; split <;> rfl
      have hnot : ¬ k ∈ (deleteRowStep (deleteBlobStep sts row) k).rows.map
          SqlRow.id := by
        intro hmem
        rcases List.mem_map.mp hmem with ⟨r, hr, hrk⟩
        simp only [deleteRowStep, hrows2] at hr
        have := List.of_mem_filter hr
        rw [hrk] at this
        simp at this
      have hfind2 : (deleteRowStep (deleteBlobStep sts row) k).rows.find?
          (fun r => r.id == k) = none := by
        rw [List.find?_eq_none.mpr]
        intro r hr
        simp only [beq_iff_eq]
        intro he
        have hmm : r.id ∈ (deleteRowStep (deleteBlobStep sts row) k).rows.map
            SqlRow.id := List.mem_map_of_mem SqlRow.id hr
        rw [he] at hmm
        exact hnot hmm
      refine ⟨?_, ?_⟩
      · simp only [downloadSql, hfind2]
      · rw [listSql_ids_mem]
        exact hnot

/-- Witness for C4: id 999 on the empty stores, and a delete of the only
record followed by lookups of its id. -/
theorem c4_witness :
    downloadMemId (memRun defaultMaxFileSize memInit []) 999 =
      .err ⟨404, false, "Document not found"⟩ ∧
    deleteSql sqlInit 999 = (⟨404, false, "Document not found"⟩, sqlInit) ∧
    downloadSql
        (deleteSql ⟨[⟨1, "a.pdf", "p", 1, 0⟩], 1, [("p", [7])]⟩ 1).2 1 =
      .err ⟨404, false, "Document not found"⟩ := by
  refine ⟨((c4_absent_not_found defaultMaxFileSize [] 999 sqlInit).1
    (by decide)).1,
    ((c4_absent_not_found defaultMaxFileSize [] 999 sqlInit).2.2.1
      (by decide)).2.1, ?_⟩
  exact ((c4_absent_not_found defaultMaxFileSize [] 1
      ⟨[⟨1, "a.pdf", "p", 1, 0⟩], 1, [("p", [7])]⟩).2.2.2
    (⟨200, true, "Document deleted successfully"⟩)
    (deleteSql ⟨[⟨1, "a.pdf", "p", 1, 0⟩], 1, [("p", [7])]⟩ 1).2
    (by decide) (by decide)).1

/-! ### Claim C2 -/

/-- C2: a successful upload (declared application/pdf, within the size
limit) appends exactly one new record to List(): its filename is the
client-supplied original name, its filesize is the actual byte count stored
(independent of the client-declared size), its id is fresh — distinct from
every id assigned by any earlier upload, deleted or not — and the upload
response carries precisely that record; for the sqlite variant the new table
row additionally records the generated storage path. -/
theorem c2_upload_creates_record (max : Nat) (es : List MemEvent)
    (es2 : List SqlEvent) (req : UploadReq) (now : Nat) (suffix : String)
    (hm : req.mimetype = "application/pdf") (hs : req.bytes.length ≤ max) :
    ((uploadMem max req now (memRun max memInit es)).1 =
      .accepted ⟨200, true, "File uploaded successfully"⟩
        ⟨(memRun max memInit es).nextId, req.originalname, req.bytes.length,
          now⟩ ∧
     listMem (uploadMem max req now (memRun max memInit es)).2 =
       listMem (memRun max memInit es) ++
         [⟨(memRun max memInit es).nextId, req.originalname,
           req.bytes.length, now⟩] ∧
     (listMem (uploadMem max req now (memRun max memInit es)).2).filter
         (fun r => r.id == (memRun max memInit es).nextId) =
       [⟨(memRun max memInit es).nextId, req.originalname, req.bytes.length,
         now⟩] ∧
     ¬ (memRun max memInit es).nextId ∈ memAssigned max memInit es) ∧
    ((uploadSql max req suffix now (sqlRun max sqlInit es2)).1 =
      .accepted ⟨200, true, "File uploaded successfully"⟩
        ⟨(sqlRun max sqlInit es2).seq + 1, req.originalname,
          req.bytes.length, now⟩ ∧
     (uploadSql max req suffix now (sqlRun max sqlInit es2)).2.rows =
       (sqlRun max sqlInit es2).rows ++
         [⟨(sqlRun max sqlInit es2).seq + 1, req.originalname,
           storedName suffix req.originalname, req.bytes.length, now⟩] ∧
     (listSql
         (uploadSql max req suffix now (sqlRun max sqlInit es2)).2).countP
         (fun r => r.id == (sqlRun max sqlInit es2).seq + 1) = 1 ∧
     ¬ (sqlRun max sqlInit es2).seq + 1 ∈ sqlAssigned max sqlInit es2) := by
  obtain ⟨hpos, hbd, hnd⟩ := memRun_inv max es memInit memInit_inv
  obtain ⟨hb, hp⟩ := memAssigned_spec max es memInit
  obtain ⟨hbd2, hnd2⟩ := sqlRun_id_inv max es2 sqlInit sqlInit_id_inv
  obtain ⟨hb2, hp2⟩ := sqlAssigned_spec max es2 sqlInit
  have hstate : (uploadMem max req now (memRun max memInit es)).2 =
      ⟨(memRun max memInit es).documents ++
          [⟨(memRun max memInit es).nextId, req.originalname,
            req.bytes.length, req.bytes, now⟩],
        (memRun max memInit es).nextId + 1⟩ :=
    memStep_upload_ok max req now (memRun max memInit es) hm hs
  have hlist : listMem (uploadMem max req now (memRun max memInit es)).2 =
      listMem (memRun max memInit es) ++
        [⟨(memRun max memInit es).nextId, req.originalname,
          req.bytes.length, now⟩] := by
    rw [hstate]
    simp [listMem, List.map_append, MemDoc.toRecord]
  have hstate2 : (uploadSql max req suffix now (sqlRun max sqlInit es2)).2 =
      ⟨(sqlRun max sqlInit es2).rows ++
          [⟨(sqlRun max sqlInit es2).seq + 1, req.originalname,
            storedName suffix req.originalname, req.bytes.length, now⟩],
        (sqlRun max sqlInit es2).seq + 1,
        diskWrite (sqlRun max sqlInit es2).disk
          (storedName suffix req.originalname) req.bytes⟩ :=
    sqlStep_upload_ok max req suffix now (sqlRun max sqlInit es2) hm hs
  refine ⟨⟨uploadMem_ok max req now _ hm hs, hlist, ?_, ?_⟩,
    uploadSql_ok max req suffix now _ hm hs, ?_, ?_, ?_⟩
  · rw [hlist, List.filter_append]
    have h0 : (listMem (memRun max memInit es)).filter
        (fun r => r.id == (memRun max memInit es).nextId) = [] := by
      rw [List.filter_eq_nil_iff]
      intro r hr
      rcases List.mem_map.mp hr with ⟨d, hd, hdr⟩
      have hlt := (hbd d hd).2
      rw [← hdr]
      simp only [beq_iff_eq, MemDoc.toRecord]
      omega
    rw [h0]
    simp
  · intro hmem
    exact absurd (hb _ hmem).2 (lt_irrefl _)
  · rw [hstate2]
  · rw [hstate2]
    have hperm : List.Perm
        (listSql (⟨(sqlRun max sqlInit es2).rows ++
            [⟨(sqlRun max sqlInit es2).seq + 1, req.originalname,
              storedName suffix req.originalname, req.bytes.length, now⟩],
          (sqlRun max sqlInit es2).seq + 1,
          diskWrite (sqlRun max sqlInit es2).disk
            (storedName suffix req.originalname) req.bytes⟩ : SqlState))
        ((sqlRun max sqlInit es2).rows ++
          [⟨(sqlRun max sqlInit es2).seq + 1, req.originalname,
            storedName suffix req.originalname, req.bytes.length, now⟩]) :=
      sortDesc_perm _
    rw [hperm.countP_eq, List.countP_append]
    have h0 : (sqlRun max sqlInit es2).rows.countP
        (fun r => r.id == (sqlRun max sqlInit es2).seq + 1) = 0 := by
      rw [List.countP_eq_zero]
      intro r hr
      have hle := (hbd2 r hr).2
      simp only [beq_iff_eq]
      omega
    rw [h0]
    simp
  · intro hmem
    have := (hb2 _ hmem).2
    omega

/-- Witness for C2: one concrete upload after an earlier upload-and-delete
on each variant. -/
theorem c2_witness :
    ("application/pdf" : String) = "application/pdf" ∧
    (([9, 9, 9] : Bytes).length ≤ 100) ∧
    (uploadMem 100 ⟨"application/pdf", "r.pdf", [9, 9, 9], 3⟩ 7
        (memRun 100 memInit
          [.upload ⟨"application/pdf", "a.pdf", [1], 1⟩ 1, .del "1"])).1 =
      .accepted ⟨200, true, "File uploaded successfully"⟩
        ⟨(memRun 100 memInit
            [.upload ⟨"application/pdf", "a.pdf", [1], 1⟩ 1, .del "1"]).nextId,
          "r.pdf", 3, 7⟩ ∧
    ¬ (sqlRun 100 sqlInit
          [.upload ⟨"application/pdf", "a.pdf", [1], 1⟩ "x" 1, .del 1]).seq + 1
        ∈ sqlAssigned 100 sqlInit
          [.upload ⟨"application/pdf", "a.pdf", [1], 1⟩ "x" 1, .del 1] := by
  refine ⟨rfl, by decide, ?_, ?_⟩
  · exact (c2_upload_creates_record 100
      [.upload ⟨"application/pdf", "a.pdf", [1], 1⟩ 1, .del "1"]
      [.upload ⟨"application/pdf", "a.pdf", [1], 1⟩ "x" 1, .del 1]
      ⟨"application/pdf", "r.pdf", [9, 9, 9], 3⟩ 7 "y" rfl
      (by decide)).1.1
  · exact (c2_upload_creates_record 100
      [.upload ⟨"application/pdf", "a.pdf", [1], 1⟩ 1, .del "1"]
      [.upload ⟨"application/pdf", "a.pdf", [1], 1⟩ "x" 1, .del 1]
      ⟨"application/pdf", "r.pdf", [9, 9, 9], 3⟩ 7 "y" rfl
      (by decide)).2.2.2.2

/-! ### Claim C1 -/

/-- C1: every record listed by List() stems from a successful upload of the
trace, and downloading its id returns byte-for-byte the content passed to
that upload; stated for the in-memory variant along any trace, and for the
sqlite variant along any trace whose generated storage names are fresh
(what the timestamp-plus-random suffix is there to ensure). -/
theorem c1_download_roundtrip (max : Nat) (es : List MemEvent)
    (es2 : List SqlEvent) (hfr : sqlFresh max sqlInit es2 = true) :
    (∀ rec ∈ listMem (memRun max memInit es),
      ∃ req now, MemEvent.upload req now ∈ es ∧
        rec.filename = req.originalname ∧ rec.filesize = req.bytes.length ∧
        downloadMemId (memRun max memInit es) rec.id =
          .file req.originalname req.bytes) ∧
    (∀ row ∈ listSql (sqlRun max sqlInit es2),
      ∃ req suffix now, SqlEvent.upload req suffix now ∈ es2 ∧
        row.filename = req.originalname ∧ row.filesize = req.bytes.length ∧
        downloadSql (sqlRun max sqlInit es2) row.id =
          .file req.originalname req.bytes) := by
  constructor
  · intro rec hrec
    obtain ⟨hpos, hbd, hnd⟩ := memRun_inv max es memInit memInit_inv
    have hprov := memRun_createdBy max es es (fun e he => he) memInit
      (by intro d hd; exact absurd hd (List.not_mem_nil d))
    rcases List.mem_map.mp hrec with ⟨d, hd, hdr⟩
    obtain ⟨req, now, hmem, hmime, hfn, hfs, hbuf, hca⟩ := hprov d hd
    refine ⟨req, now, hmem, ?_, ?_, ?_⟩
    · rw [← hdr]; exact hfn
    · rw [← hdr]; exact hfs
    · rw [← hdr]
      rw [show (MemDoc.toRecord d).id = d.id from rfl]
      rw [downloadMemId_found (memRun max memInit es) d hnd hd, hfn, hbuf]
  · intro row hrow
    obtain ⟨hbd2, hid2, hfp2, hblob2⟩ :=
      sqlRun_inv max es2 es2 (fun e he => he) sqlInit hfr (sqlInit_inv es2)
    have hrowmem : row ∈ (sqlRun max sqlInit es2).rows :=
      (mem_listSql _ row).mp hrow
    obtain ⟨req, suffix, now, hmem, hmime, hfn, hfs, hca, hread⟩ :=
      hblob2 row hrowmem
    refine ⟨req, suffix, now, hmem, hfn, hfs, ?_⟩
    have hfind : (sqlRun max sqlInit es2).rows.find?
        (fun x => x.id == row.id) = some row :=
      find_key_of_mem SqlRow.id _ hid2 row hrowmem
    simp only [downloadSql, hfind, hread]
    rw [hfn]

/-- Witness for C1: a one-upload trace on each variant, with the freshness
hypothesis checked by evaluation. -/
theorem c1_witness :
    sqlFresh 100 sqlInit
        [.upload ⟨"application/pdf", "b.pdf", [9], 1⟩ "s" 5] = true ∧
    (∀ rec ∈ listMem (memRun 100 memInit
        [.upload ⟨"application/pdf", "a.pdf", [7, 8], 2⟩ 5]),
      ∃ req now, MemEvent.upload req now ∈
          [MemEvent.upload ⟨"application/pdf", "a.pdf", [7, 8], 2⟩ 5] ∧
        rec.filename = req.originalname ∧ rec.filesize = req.bytes.length ∧
        downloadMemId (memRun 100 memInit
            [.upload ⟨"application/pdf", "a.pdf", [7, 8], 2⟩ 5]) rec.id =
          .file req.originalname req.bytes) ∧
    (∀ row ∈ listSql (sqlRun 100 sqlInit
        [.upload ⟨"application/pdf", "b.pdf", [9], 1⟩ "s" 5]),
      ∃ req suffix now, SqlEvent.upload req suffix now ∈
          [SqlEvent.upload ⟨"application/pdf", "b.pdf", [9], 1⟩ "s" 5] ∧
        row.filename = req.originalname ∧ row.filesize = req.bytes.length ∧
        downloadSql (sqlRun 100 sqlInit
            [.upload ⟨"application/pdf", "b.pdf", [9], 1⟩ "s" 5]) row.id =
          .file req.originalname req.bytes) :=
  ⟨by decide,
    (c1_download_roundtrip 100
      [.upload ⟨"application/pdf", "a.pdf", [7, 8], 2⟩ 5]
      [.upload ⟨"application/pdf", "b.pdf", [9], 1⟩ "s" 5] (by decide)).1,
    (c1_download_roundtrip 100
      [.upload ⟨"application/pdf", "a.pdf", [7, 8], 2⟩ 5]
      [.upload ⟨"application/pdf", "b.pdf", [9], 1⟩ "s" 5] (by decide)).2⟩

end DocServer
